import Mathlib

/-!
Shallow embedding of the merge-cluster core of
`src/panoptic_front/src/components/modals/MergeClusterModal.vue`:
the value normalizer (`stringifyValue` / `formatValue`), the row builder
(`buildRows` with its `combineValues` combiner) and the commit builder
(the body of `confirmMerge`), together with proofs of the behavioural
claims about them.

JavaScript dynamic values are embedded as a closed variant `PValue` of the
runtime shapes that flow through the component (string, number, boolean,
`Date`, array of tag identifiers); a property map entry is a `JSVal`,
which distinguishes `undefined`, `null` and a defined value exactly as the
source's `v !== undefined && v !== null` checks do.
-/

namespace Panoptic

/-- Property types, from `PropertyType` in `@/data/models` (the module is
not part of the extracted sources; the constructor set is modelled from
the spec's data model: free text, checkbox, color, single-tag, multi-tag,
numeric, date, plus the reserved derived types referenced at
`MergeClusterModal.vue` line 140). -/
inductive PropertyType where
  | string
  | number
  | tag
  | multi_tags
  | checkbox
  | color
  | date
  | folders
  | idType
  | sha1Type
  | ahash
  | width
  | height
deriving DecidableEq, Repr

/-- Property storage scope, from `PropertyMode` in `@/data/models`
(module not in the extracted sources). Modelled from the spec:
`id` is per-instance, `sha1` is per-entity (addressed by content hash). -/
inductive PropertyMode where
  | id
  | sha1
deriving DecidableEq, Repr

/-- Modelled from the spec: `isTag` (from `@/utils/utils`, not in the
extracted sources) holds exactly for the single-tag and multi-tag
property types. -/
def isTag (t : PropertyType) : Bool :=
  t = PropertyType.tag ∨ t = PropertyType.multi_tags

/-- A property schema (`Property` of `@/data/models`), restricted to the
fields the merge modal reads: identifier, name, type, computed flag and
storage mode. -/
structure Property where
  id : Int
  name : String
  type : PropertyType
  computed : Bool
  mode : PropertyMode
deriving DecidableEq, Repr

/-- A JS `Date`, embedded by the calendar components that
`toISOString` prints.  The epoch-milliseconds-to-calendar conversion is
not modelled; only the ISO output format matters to the core. -/
structure DateV where
  year : Nat
  month : Nat
  day : Nat
  hour : Nat
  minute : Nat
  second : Nat
  milli : Nat
deriving DecidableEq, Repr

/-- Left-pad the decimal form of `n` with zeros to width `w`
(`String.pushn`-style), as `toISOString` prints calendar fields. -/
def padNat (w : Nat) (n : Nat) : String :=
  String.mk (List.replicate (w - (Nat.repr n).length) '0') ++ Nat.repr n

/-- `Date.prototype.toISOString`: `YYYY-MM-DDTHH:mm:ss.sssZ`. -/
def DateV.toISOString (t : DateV) : String :=
  padNat 4 t.year ++ "-" ++ padNat 2 t.month ++ "-" ++ padNat 2 t.day ++ "T" ++
    padNat 2 t.hour ++ ":" ++ padNat 2 t.minute ++ ":" ++ padNat 2 t.second ++ "." ++
    padNat 3 t.milli ++ "Z"

/-- The JS runtime value shapes a property value can take in this
component: a string, a number, a boolean, a `Date`, or an array of tag
identifiers. -/
inductive PValue where
  | text (s : String)
  | num (n : Int)
  | bool (b : Bool)
  | date (d : DateV)
  | arr (ids : List Int)
deriving DecidableEq, Repr

/-- A property-map entry: JS `undefined`, JS `null`, or a defined value. -/
inductive JSVal where
  | undef
  | null
  | val (v : PValue)
deriving DecidableEq, Repr

/-- The defined value of an entry, if any: both `undefined` and `null`
fail the source's `v !== undefined && v !== null` test. -/
def definedVal : JSVal → Option PValue
  | .val v => some v
  | _ => none

/-- Boolean form of the `v !== undefined && v !== null` test. -/
def isDefined (v : JSVal) : Bool :=
  (definedVal v).isSome

/-- A cluster member (`Instance` of `@/data/models`): identifier, content
hash, display name and property map (modelled as an association list from
property identifier to entry). -/
structure Instance where
  id : Int
  sha1 : String
  name : String
  properties : List (Int × JSVal)
deriving DecidableEq, Repr

/-- `img.properties[pid]`: a missing association is JS `undefined`. -/
def getProp (img : Instance) (pid : Int) : JSVal :=
  ((img.properties.find? (fun e => e.1 == pid)).map (fun e => e.2)).getD JSVal.undef

/-- JS `String(v)` on the scalar shapes (and the `Array.prototype.toString`
/ comma join for arrays, unreachable in `stringifyValue` where the array
branch fires first). -/
def jsToString : PValue → String
  | .text s => s
  | .num n => Int.repr n
  | .bool true => "true"
  | .bool false => "false"
  | .date d => d.toISOString
  | .arr ids => String.intercalate "," (ids.map Int.repr)

/-- JSON string-body escaping used by `JSON.stringify` (quote and
backslash; control-character escapes are not needed for any value this
component produces). -/
def escapeJson (s : String) : String :=
  String.mk (s.data.flatMap (fun c =>
    if c = '"' then ['\\', '"'] else if c = '\\' then ['\\', '\\'] else [c]))

/-- Character comparison by code point, as JS compares string elements
(code-unit versus code-point order only differ beyond the basic
multilingual plane, which no value this component serializes reaches). -/
def charLe (a b : Char) : Bool :=
  a.toNat ≤ b.toNat

/-- Lexicographic string order on character lists, the order JS `<`
imposes on strings. -/
def lexLe : List Char → List Char → Bool
  | [], _ => true
  | _ :: _, [] => false
  | a :: as, b :: bs => if a = b then lexLe as bs else charLe a b

/-- The comparator JS `Array.prototype.sort()` applies by default:
elements compare by their string conversion. -/
def reprLe (a b : Int) : Prop :=
  lexLe (Int.repr a).data (Int.repr b).data = true

instance : DecidableRel reprLe :=
  fun _ _ => inferInstanceAs (Decidable (_ = true))

theorem charLe_total (a b : Char) : charLe a b = true ∨ charLe b a = true := by
  simpa [charLe, decide_eq_true_iff] using Nat.le_total a.toNat b.toNat

theorem Char.toNat_injective {a b : Char} (h : a.toNat = b.toNat) : a = b := by
  rw [← Char.ofNat_toNat a, ← Char.ofNat_toNat b, h]

theorem lexLe_total : ∀ x y : List Char, lexLe x y = true ∨ lexLe y x = true
  | [], _ => by simp [lexLe]
  | _ :: _, [] => by simp [lexLe]
  | a :: as, b :: bs => by
    by_cases hab : a = b
    · subst hab
      simpa [lexLe] using lexLe_total as bs
    · simp only [lexLe, if_neg hab, if_neg (Ne.symm hab)]
      exact charLe_total a b

theorem lexLe_antisymm : ∀ {x y : List Char},
    lexLe x y = true → lexLe y x = true → x = y
  | [], [], _, _ => rfl
  | [], _ :: _, _, h => by simp [lexLe] at h
  | _ :: _, [], h, _ => by simp [lexLe] at h
  | a :: as, b :: bs, h, h' => by
    by_cases hab : a = b
    · subst hab
      simp only [lexLe, if_pos rfl] at h h'
      exact congrArg _ (lexLe_antisymm h h')
    · simp only [lexLe, if_neg hab, if_neg (Ne.symm hab), charLe,
        decide_eq_true_iff] at h h'
      exact absurd (Char.toNat_injective (Nat.le_antisymm h h')) hab

theorem lexLe_trans : ∀ {x y z : List Char},
    lexLe x y = true → lexLe y z = true → lexLe x z = true
  | [], _, _, _, _ => rfl
  | _ :: _, [], _, h, _ => by simp [lexLe] at h
  | _ :: _, _ :: _, [], _, h => by simp [lexLe] at h
  | a :: as, b :: bs, c :: cs, h, h' => by
    by_cases hab : a = b
    · subst hab
      by_cases hac : a = c
      · subst hac
        simp only [lexLe, if_pos rfl] at h h' ⊢
        exact lexLe_trans h h'
      · simpa [lexLe, if_neg hac] using h'
    · by_cases hbc : b = c
      · subst hbc
        simpa [lexLe, if_neg hab] using h
      · simp only [lexLe, if_neg hab, if_neg hbc, charLe, decide_eq_true_iff] at h h'
        have hac : a ≠ c := by
          intro heq
          subst heq
          exact hab (Char.toNat_injective (Nat.le_antisymm h h'))
        simp only [lexLe, if_neg hac, charLe, decide_eq_true_iff]
        exact Nat.le_trans h h'

instance : IsTotal Int reprLe :=
  ⟨fun a b => by
    rcases lexLe_total (Int.repr a).data (Int.repr b).data with h | h
    · exact Or.inl h
    · exact Or.inr h⟩

instance : IsTrans Int reprLe :=
  ⟨fun _ _ _ h h' => lexLe_trans h h'⟩

/-- `[...value].sort()` on an array of tag identifiers: sorted by the
default string comparator. -/
def jsSortInts (l : List Int) : List Int :=
  l.insertionSort reprLe

/-- `JSON.stringify` of the embedded shapes. -/
def jsonEncode : PValue → String
  | .text s => "\"" ++ escapeJson s ++ "\""
  | .num n => Int.repr n
  | .bool true => "true"
  | .bool false => "false"
  | .date d => "\"" ++ d.toISOString ++ "\""
  | .arr ids => "[" ++ String.intercalate "," (ids.map Int.repr) ++ "]"

/-- `stringifyValue(value, property)` (lines 60-72): the canonical
comparison key.  Absent (`undefined`/`null`) values map to
`"__undefined__"`; arrays are sorted (default JS comparator) then
JSON-encoded; dates print via `toISOString`; color-typed values via
`String(value)`; everything else via `JSON.stringify(value)`. -/
def stringifyValue (value : JSVal) (property : Property) : String :=
  match value with
  | .undef => "__undefined__"
  | .null => "__undefined__"
  | .val v =>
    match v with
    | .arr ids => "[" ++ String.intercalate "," ((jsSortInts ids).map Int.repr) ++ "]"
    | .date d => d.toISOString
    | v =>
      if property.type = PropertyType.color then jsToString v else jsonEncode v

/-- Modelled from the spec: the localized checkbox labels
`t('common.yes')` / `t('common.no')` are an external collaborator's
concern; the core only picks one of the two. -/
def yesLabel : String := "yes"

/-- Modelled from the spec: see `yesLabel`. -/
def noLabel : String := "no"

/-- JS truthiness of the scalar shapes, as the checkbox branch of
`formatValue` tests `value ? ... : ...`. -/
def jsTruthy : PValue → Bool
  | .text s => s ≠ ""
  | .num n => n ≠ 0
  | .bool b => b
  | .date _ => true
  | .arr _ => true

/-- `formatValue(value, property)` (lines 74-86): the display string.
Absent values print empty; arrays join with `", "`; dates via
`toISOString`; checkbox-typed values as the yes/no labels; everything
else via `String(value)`. -/
def formatValue (value : JSVal) (property : Property) : String :=
  match value with
  | .undef => ""
  | .null => ""
  | .val v =>
    match v with
    | .arr ids => String.intercalate ", " (ids.map Int.repr)
    | .date d => d.toISOString
    | v =>
      if property.type = PropertyType.checkbox then
        (if jsTruthy v then yesLabel else noLabel)
      else jsToString v

/-- `Set.prototype.add`: append `x` unless already present (JS sets keep
first-insertion order). -/
def insertDistinct (acc : List Int) (x : Int) : List Int :=
  if x ∈ acc then acc else acc ++ [x]

/-- Generic first-seen deduplication: fold `insertDistinct` over the list.
Keeps the first occurrence of each element, in encounter order. -/
def dedupKeepFirst (l : List Int) : List Int :=
  l.foldl insertDistinct []

/-- The tag identifiers a single defined value references: an array
contributes its elements, a number itself (the `merged.add` calls on
values of a tag-typed property; the source's `Set<number>` annotation
restricts the reachable scalars to numbers). -/
def scalarIds : PValue → List Int
  | .arr ids => ids
  | .num n => [n]
  | _ => []

/-- Whether a defined value has one of the two shapes a tag-typed
property stores (a single identifier or an array of identifiers). -/
def tagShaped : PValue → Bool
  | .arr _ => true
  | .num _ => true
  | _ => false

/-- `combineValues(values, property)` (lines 112-129): `undefined` when
no value is defined; for tag-typed properties the insertion-ordered set
union of all referenced tag identifiers; otherwise the display strings
joined with `" -- "`. -/
def combineValues (values : List JSVal) (property : Property) : Option PValue :=
  let defined := values.filterMap definedVal
  if defined.isEmpty then none
  else if isTag property.type then
    some (.arr (defined.foldl (fun merged v =>
      match v with
      | .arr ids => ids.foldl insertDistinct merged
      | .num n => insertDistinct merged n
      | _ => merged) []))
  else
    some (.text (String.intercalate " -- " (defined.map (fun v => formatValue (.val v) property))))

/-- One selectable resolution for a property row (`MergeOption`).  The
`value` field is a raw JS value: member options carry that member's
defined value, the combined option carries `combineValues`' result
(which the source leaves possibly `undefined`). -/
structure MergeOption where
  key : String
  value : JSVal
  sourceImageId : Option Int
deriving DecidableEq, Repr

/-- One property's resolution surface (`MergeRow`). -/
structure MergeRow where
  property : Property
  options : List MergeOption
  conflict : Bool
deriving DecidableEq, Repr

/-- The reactive `selectedOptions` map, embedded as an association list
whose most recent binding for an identifier shadows earlier ones. -/
abbrev SelState := List (Int × String)

/-- `selectedOptions[pid]` (JS `undefined` when unset). -/
def selGet (sel : SelState) (pid : Int) : Option String :=
  (sel.find? (fun e => e.1 == pid)).map (fun e => e.2)

/-- `selectedOptions[pid] = k`. -/
def selSet (sel : SelState) (pid : Int) (k : String) : SelState :=
  (pid, k) :: sel

/-- The reserved derived property types excluded from merging
(line 140). -/
def reservedTypes : List PropertyType :=
  [.folders, .idType, .sha1Type, .ahash, .width, .height]

/-- The property filter of line 139-140: positive identifier, not
computed, not a reserved derived type. -/
def isResolvable (p : Property) : Bool :=
  p.id > 0 && !p.computed && !(decide (p.type ∈ reservedTypes))

/-- `values = groupImages.map(img => img.properties[property.id])`
(line 143), in member order. -/
def propValues (images : List Instance) (pid : Int) : List JSVal :=
  images.map (fun img => getProp img pid)

/-- The per-member options of lines 146-150: one option per member with a
defined value, keyed by `String(member.id)`, carrying the raw value. -/
def memberOptions (images : List Instance) (pid : Int) : List MergeOption :=
  images.filterMap (fun img =>
    match getProp img pid with
    | .val v => some ⟨Int.repr img.id, .val v, some img.id⟩
    | _ => none)

/-- The canonical keys of the defined values (lines 152-154). -/
def definedKeys (images : List Instance) (p : Property) : List String :=
  ((propValues images p.id).filter isDefined).map (fun v => stringifyValue v p)

/-- `conflict = new Set(definedKeys).size > 1` (line 155). -/
def hasConflict (images : List Instance) (p : Property) : Bool :=
  1 < (definedKeys images p).dedup.length

/-- The row's full option list: member options, plus — on conflict — the
combined option appended last (lines 157-159). -/
def rowOptions (images : List Instance) (p : Property) : List MergeOption :=
  memberOptions images p.id ++
    (if hasConflict images p then
      [⟨"combined", (combineValues (propValues images p.id) p).elim JSVal.undef JSVal.val, none⟩]
    else [])

/-- `defaultKey = selectedOptions[property.id] ?? (conflict ? 'combined'
: options[0].key)` (line 163).  Note the prior selection is reused
unconditionally whenever present. -/
def defaultKeyFor (images : List Instance) (p : Property) (sel : SelState) : String :=
  match selGet sel p.id with
  | some k => k
  | none =>
    if hasConflict images p then "combined"
    else
      match rowOptions images p with
      | o :: _ => o.key
      | [] => ""

/-- The row emitted for one property, if any: skipped when no member has
a defined value (line 144) or — defensively — when the option list is
empty (line 161). -/
def rowFor (images : List Instance) (p : Property) : Option MergeRow :=
  if (propValues images p.id).any isDefined then
    if (rowOptions images p).isEmpty then none
    else some ⟨p, rowOptions images p, hasConflict images p⟩
  else none

/-- The `for (const property of properties)` loop of lines 142-166,
threading the selection map. -/
def buildRowsGo (images : List Instance) :
    List Property → SelState → List MergeRow × SelState
  | [], sel => ([], sel)
  | p :: ps, sel =>
    match rowFor images p with
    | none => buildRowsGo images ps sel
    | some row =>
      let rest := buildRowsGo images ps (selSet sel p.id (defaultKeyFor images p sel))
      (row :: rest.1, rest.2)

/-- `buildRows()` (lines 131-169): empty member list short-circuits to no
rows; otherwise one row per resolvable property with a defined value, in
property-list order, updating the selection map as it goes. -/
def buildRows (images : List Instance) (propertyList : List Property) (sel : SelState) :
    List MergeRow × SelState :=
  if images.isEmpty then ([], sel)
  else buildRowsGo images (propertyList.filter isResolvable) sel

/-- An instance-scoped resolved value (`InstancePropertyValue`). -/
structure InstancePropertyValue where
  propertyId : Int
  instanceId : Int
  value : PValue
deriving DecidableEq, Repr

/-- An entity-scoped resolved value (`ImagePropertyValue`). -/
structure ImagePropertyValue where
  propertyId : Int
  sha1 : String
  value : PValue
deriving DecidableEq, Repr

/-- The change-set handed to `data.sendCommit` (`DbCommit`). -/
structure DbCommit where
  instances : List Instance
  instanceValues : List InstancePropertyValue
  imageValues : List ImagePropertyValue
deriving DecidableEq, Repr

/-- Lines 181-183: resolve one row against the selection — look up the
selected key, find the matching option, and keep its value only when
defined.  `none` means the row is skipped. -/
def resolveRow (sel : SelState) (row : MergeRow) : Option PValue :=
  match selGet sel row.property.id with
  | none => none
  | some key =>
    match row.options.find? (fun o => o.key == key) with
    | none => none
    | some option => definedVal option.value

/-- The commit construction of `confirmMerge` (lines 177-200): a copy of
the base member with identifier `-1`, and each resolved row's value
routed by the property's mode into the instance- or image-scoped list. -/
def confirmMergeCommit (base : Instance) (rows : List MergeRow) (sel : SelState) : DbCommit :=
  let newInstance : Instance := { base with id := -1 }
  rows.foldl (fun commit row =>
    match resolveRow sel row with
    | none => commit
    | some v =>
      if row.property.mode = PropertyMode.id then
        { commit with instanceValues :=
            commit.instanceValues ++ [⟨row.property.id, newInstance.id, v⟩] }
      else
        { commit with imageValues :=
            commit.imageValues ++ [⟨row.property.id, newInstance.sha1, v⟩] })
    { instances := [newInstance], instanceValues := [], imageValues := [] }

/-- The component state `confirmMerge` closes over. -/
structure MergeState where
  merging : Bool
  baseImage : Option Instance
  mergeRows : List MergeRow
  selectedOptions : SelState
deriving DecidableEq, Repr

/-- The entry and send behaviour of `confirmMerge` (lines 171-202): the
commit passed to the external `data.sendCommit`, or `none` when the
`if (!baseImage.value) return` guard fires.  The routine performs no
check of the `merging` flag. -/
def confirmMergeSend (st : MergeState) : Option DbCommit :=
  match st.baseImage with
  | none => none
  | some base => some (confirmMergeCommit base st.mergeRows st.selectedOptions)

/-- The `disabled` condition of the confirm control (template line 279):
`merging || !baseImage`; the stylesheet gives `.bb.disabled`
`pointer-events: none`, so a disabled control dispatches no click. -/
def confirmDisabled (st : MergeState) : Bool :=
  st.merging || st.baseImage.isNone

/-- The transformation claim C10 quantifies over: turn a `null` property
entry into JS `undefined`, leaving everything else unchanged. -/
def scrubVal : JSVal → JSVal
  | .null => .undef
  | v => v

/-- `scrubVal` applied across a member's property map. -/
def scrubInstance (img : Instance) : Instance :=
  { img with properties := img.properties.map (fun e => (e.1, scrubVal e.2)) }

/-! ### Order-independence of the array canonicalization -/

theorem string_data_injective : Function.Injective String.data := by
  intro s t h
  cases s
  cases t
  exact congrArg String.mk h

instance : IsAntisymm (List Char) (fun x y => lexLe x y = true) :=
  ⟨fun _ _ h h' => lexLe_antisymm h h'⟩

instance : IsTrans (List Char) (fun x y => lexLe x y = true) :=
  ⟨fun _ _ _ h h' => lexLe_trans h h'⟩

/-- Sorting permuted identifier arrays with the default JS comparator
yields the same sequence of decimal representations. -/
theorem jsSortInts_map_repr_eq {l₁ l₂ : List Int} (h : l₁.Perm l₂) :
    (jsSortInts l₁).map Int.repr = (jsSortInts l₂).map Int.repr := by
  have key : ∀ l : List Int,
      List.Sorted (fun x y => lexLe x y = true)
        ((jsSortInts l).map (fun i => (Int.repr i).data)) := by
    intro l
    exact List.Pairwise.map (fun i => (Int.repr i).data) (fun _ _ hr => hr)
      (List.sorted_insertionSort reprLe l)
  have hperm :
      ((jsSortInts l₁).map (fun i => (Int.repr i).data)).Perm
        ((jsSortInts l₂).map (fun i => (Int.repr i).data)) := by
    refine ((List.perm_insertionSort reprLe l₁).map _).trans ?_
    exact (h.map _).trans ((List.perm_insertionSort reprLe l₂).map _).symm
  have hdata := List.eq_of_perm_of_sorted hperm (key l₁) (key l₂)
  have hdata' :
      ((jsSortInts l₁).map Int.repr).map String.data =
        ((jsSortInts l₂).map Int.repr).map String.data := by
    simpa [List.map_map, Function.comp] using hdata
  exact (List.map_injective_iff.mpr string_data_injective) hdata'

/-- Canonicalization of identifier arrays is order-independent: permuted
arrays stringify identically under any schema. -/
theorem stringifyValue_arr_perm {l₁ l₂ : List Int} (h : l₁.Perm l₂) (p : Property) :
    stringifyValue (.val (.arr l₁)) p = stringifyValue (.val (.arr l₂)) p := by
  simp only [stringifyValue, jsSortInts_map_repr_eq h]

/-! ### Distinct-count versus pairwise difference -/

/-- `new Set(keys).size > 1` says exactly that two of the keys differ. -/
theorem one_lt_dedup_length_iff {l : List String} :
    1 < l.dedup.length ↔ ∃ a ∈ l, ∃ b ∈ l, a ≠ b := by
  constructor
  · intro h
    match hd : l.dedup with
    | [] => rw [hd] at h; simp at h
    | [_] => rw [hd] at h; simp at h
    | a :: b :: rest =>
      have hnd : l.dedup.Nodup := l.nodup_dedup
      rw [hd] at hnd
      have hab : a ≠ b := by
        intro hab
        subst hab
        simp [List.nodup_cons] at hnd
      have ha : a ∈ l := by
        rw [← List.mem_dedup, hd]
        simp
      have hb : b ∈ l := by
        rw [← List.mem_dedup, hd]
        simp
      exact ⟨a, ha, b, hb, hab⟩
  · rintro ⟨a, ha, b, hb, hab⟩
    by_contra hlen
    have ha' : a ∈ l.dedup := List.mem_dedup.mpr ha
    have hb' : b ∈ l.dedup := List.mem_dedup.mpr hb
    match hd : l.dedup with
    | [] => rw [hd] at ha'; simp at ha'
    | [c] =>
      rw [hd] at ha' hb'
      simp at ha' hb'
      exact hab (ha'.trans hb'.symm)
    | _ :: _ :: _ => rw [hd] at hlen; simp at hlen

/-! ### Structure of the row-builder loop -/

/-- The rows the loop emits are exactly the per-property rows, in
property order; the selection state influences only the selection
output, never the rows. -/
theorem buildRowsGo_fst (images : List Instance) :
    ∀ (ps : List Property) (sel : SelState),
      (buildRowsGo images ps sel).1 = ps.filterMap (rowFor images)
  | [], _ => rfl
  | p :: ps, sel => by
    match h : rowFor images p with
    | none =>
      simp only [buildRowsGo, h, List.filterMap_cons_none h]
      exact buildRowsGo_fst images ps sel
    | some row =>
      simp only [buildRowsGo, h, List.filterMap_cons_some h]
      exact congrArg _ (buildRowsGo_fst images ps _)

theorem memberOptions_ne_nil {images : List Instance} {pid : Int}
    (h : (propValues images pid).any isDefined = true) :
    memberOptions images pid ≠ [] := by
  intro hnil
  rw [List.any_eq_true] at h
  obtain ⟨v, hv, hdef⟩ := h
  rw [propValues, List.mem_map] at hv
  obtain ⟨img, himg, rfl⟩ := hv
  rw [memberOptions, List.filterMap_eq_nil_iff] at hnil
  have := hnil img himg
  revert hdef this
  cases getProp img pid <;> simp [isDefined, definedVal]

theorem rowOptions_ne_nil {images : List Instance} {p : Property}
    (h : (propValues images p.id).any isDefined = true) :
    rowOptions images p ≠ [] := by
  rw [rowOptions]
  intro hnil
  rcases List.append_eq_nil.mp hnil with ⟨h1, _⟩
  exact memberOptions_ne_nil h h1

/-- A row is emitted for a property exactly when some member holds a
defined value for it. -/
theorem rowFor_isSome (images : List Instance) (p : Property) :
    (rowFor images p).isSome = (propValues images p.id).any isDefined := by
  rw [rowFor]
  by_cases h : (propValues images p.id).any isDefined = true
  · rw [if_pos h, h]
    rw [if_neg (by simpa [List.isEmpty_iff] using rowOptions_ne_nil h)]
    rfl
  · rw [if_neg h]
    simp only [Option.isSome_none]
    exact (Bool.eq_false_iff.mpr (fun hc => h hc)).symm

theorem rowFor_eq_some {images : List Instance} {p : Property} {row : MergeRow}
    (h : rowFor images p = some row) :
    row = ⟨p, rowOptions images p, hasConflict images p⟩ := by
  rw [rowFor] at h
  by_cases hd : (propValues images p.id).any isDefined = true
  · rw [if_pos hd] at h
    by_cases he : (rowOptions images p).isEmpty = true
    · rw [if_pos he] at h
      cases h
    · rw [if_neg he] at h
      exact (Option.some.injEq _ _ ▸ h).symm
  · rw [if_neg hd] at h
    cases h

/-- Membership in the built row list, characterized. -/
theorem mem_buildRows {images : List Instance} {schemas : List Property}
    {sel : SelState} {row : MergeRow}
    (h : row ∈ (buildRows images schemas sel).1) :
    row.property ∈ schemas.filter isResolvable ∧
      row = ⟨row.property, rowOptions images row.property,
        hasConflict images row.property⟩ := by
  rw [buildRows] at h
  by_cases he : images.isEmpty = true
  · rw [if_pos he] at h
    simp at h
  · rw [if_neg he, buildRowsGo_fst] at h
    rw [List.mem_filterMap] at h
    obtain ⟨p, hp, hrow⟩ := h
    have hstruct := rowFor_eq_some hrow
    have hprop : row.property = p := by rw [hstruct]
    rw [hprop]
    exact ⟨hp, hstruct⟩

theorem map_property_filterMap_rowFor (images : List Instance) :
    ∀ ps : List Property,
      (ps.filterMap (rowFor images)).map (fun r => r.property) =
        ps.filter (fun p => (rowFor images p).isSome)
  | [] => rfl
  | p :: ps => by
    match h : rowFor images p with
    | none =>
      rw [List.filterMap_cons_none h, List.filter_cons_of_neg (by simp [h]),
        map_property_filterMap_rowFor images ps]
    | some row =>
      rw [List.filterMap_cons_some h, List.filter_cons_of_pos (by simp [h]),
        List.map_cons, map_property_filterMap_rowFor images ps,
        rowFor_eq_some h]

/-! ### Selection-state evolution -/

theorem selGet_selSet_self (sel : SelState) (pid : Int) (k : String) :
    selGet (selSet sel pid k) pid = some k := by
  simp [selGet, selSet, List.find?_cons_of_pos]

theorem selGet_selSet_ne (sel : SelState) {pid pid' : Int} (k : String)
    (h : pid' ≠ pid) : selGet (selSet sel pid k) pid' = selGet sel pid' := by
  simp only [selGet, selSet]
  rw [List.find?_cons_of_neg]
  simpa using fun heq => h heq.symm

theorem defaultKeyFor_congr {images : List Instance} {p : Property}
    {sel sel' : SelState} (h : selGet sel' p.id = selGet sel p.id) :
    defaultKeyFor images p sel' = defaultKeyFor images p sel := by
  rw [defaultKeyFor, defaultKeyFor, h]

/-- Properties not named in the remaining list leave their selection
untouched. -/
theorem buildRowsGo_snd_stable (images : List Instance) :
    ∀ (ps : List Property) (sel : SelState) (pid : Int),
      (∀ p ∈ ps, p.id ≠ pid) →
      selGet (buildRowsGo images ps sel).2 pid = selGet sel pid
  | [], _, _, _ => rfl
  | p :: ps, sel, pid, h => by
    match hr : rowFor images p with
    | none =>
      simp only [buildRowsGo, hr]
      exact buildRowsGo_snd_stable images ps sel pid (fun q hq => h q (List.mem_cons_of_mem p hq))
    | some row =>
      simp only [buildRowsGo, hr]
      rw [buildRowsGo_snd_stable images ps _ pid (fun q hq => h q (List.mem_cons_of_mem p hq))]
      exact selGet_selSet_ne sel _ (Ne.symm (h p (List.mem_cons_self p ps)))

/-- For a property list without duplicate identifiers, an emitted
property's final selection is its default key computed against the
selection state the loop started from. -/
theorem buildRowsGo_snd_emitted (images : List Instance) :
    ∀ (ps : List Property) (sel : SelState) (p : Property),
      (ps.map (fun q => q.id)).Nodup → p ∈ ps → (rowFor images p).isSome = true →
      selGet (buildRowsGo images ps sel).2 p.id = some (defaultKeyFor images p sel)
  | [], _, _, _, hp, _ => absurd hp (List.not_mem_nil _)
  | q :: ps, sel, p, hnd, hp, hsome => by
    have hnd' : (ps.map (fun r => r.id)).Nodup := (List.nodup_cons.mp hnd).2
    have hqid : q.id ∉ ps.map (fun r => r.id) := (List.nodup_cons.mp hnd).1
    rcases List.mem_cons.mp hp with rfl | hptail
    · match hr : rowFor images p with
      | none => rw [hr] at hsome; simp at hsome
      | some row =>
        simp only [buildRowsGo, hr]
        rw [buildRowsGo_snd_stable images ps _ p.id
          (fun r hr' heq => hqid (heq ▸ List.mem_map_of_mem _ hr'))]
        exact selGet_selSet_self sel p.id _
    · have hne : q.id ≠ p.id := fun heq =>
        hqid (heq ▸ List.mem_map_of_mem _ hptail)
      match hr : rowFor images q with
      | none =>
        simp only [buildRowsGo, hr]
        exact buildRowsGo_snd_emitted images ps sel p hnd' hptail hsome
      | some row =>
        simp only [buildRowsGo, hr]
        rw [buildRowsGo_snd_emitted images ps _ p hnd' hptail hsome]
        exact congrArg some (defaultKeyFor_congr (selGet_selSet_ne sel _ (Ne.symm hne)))

/-! ### Structure of the commit builder -/

/-- The instance-scoped record a row contributes, if any
(lines 185-191). -/
def routeInstanceValue (sel : SelState) (row : MergeRow) : Option InstancePropertyValue :=
  match resolveRow sel row with
  | none => none
  | some v =>
    if row.property.mode = PropertyMode.id then
      some ⟨row.property.id, (-1 : Int), v⟩
    else none

/-- The entity-scoped record a row contributes, if any (lines 192-199). -/
def routeImageValue (base : Instance) (sel : SelState) (row : MergeRow) :
    Option ImagePropertyValue :=
  match resolveRow sel row with
  | none => none
  | some v =>
    if row.property.mode = PropertyMode.id then none
    else some ⟨row.property.id, base.sha1, v⟩

/-- The commit loop, as its two list projections plus the synthesized
member. -/
theorem confirmMergeCommit_eq (base : Instance) (rows : List MergeRow) (sel : SelState) :
    confirmMergeCommit base rows sel =
      { instances := [{ base with id := -1 }],
        instanceValues := rows.filterMap (routeInstanceValue sel),
        imageValues := rows.filterMap (routeImageValue base sel) } := by
  have main : ∀ (rs : List MergeRow) (c : DbCommit),
      rs.foldl (fun commit row =>
        match resolveRow sel row with
        | none => commit
        | some v =>
          if row.property.mode = PropertyMode.id then
            { commit with instanceValues :=
                commit.instanceValues ++ [⟨row.property.id, (-1 : Int), v⟩] }
          else
            { commit with imageValues :=
                commit.imageValues ++ [⟨row.property.id, base.sha1, v⟩] }) c =
      { instances := c.instances,
        instanceValues := c.instanceValues ++ rs.filterMap (routeInstanceValue sel),
        imageValues := c.imageValues ++ rs.filterMap (routeImageValue base sel) } := by
    intro rs
    induction rs with
    | nil => intro c; simp
    | cons r rs ih =>
      intro c
      rw [List.foldl_cons]
      match hr : resolveRow sel r with
      | none =>
        rw [ih c]
        simp [routeInstanceValue, routeImageValue, hr]
      | some v =>
        rw [ih]
        by_cases hm : r.property.mode = PropertyMode.id <;>
          simp [routeInstanceValue, routeImageValue, hr, hm]
  exact (main rows _).trans (by simp)

/-! ### Shape of the serialized forms

The absent key `"__undefined__"` starts with `'_'`; every serialization
of a defined value starts differently (JSON quote, bracket, digit or
minus sign, `true`/`false`) or ends with `'Z'` (ISO dates) — except a
color-typed value whose JS string form is itself `"__undefined__"`. -/

theorem digitChar_isDigit {m : Nat} (h : m < 10) : (Nat.digitChar m).isDigit = true := by
  have key : ∀ k : Fin 10, (Nat.digitChar k.val).isDigit = true := by decide
  exact key ⟨m, h⟩

theorem toDigitsCore_mem :
    ∀ (f n : Nat) (ds : List Char) (c : Char),
      c ∈ Nat.toDigitsCore 10 f n ds → c ∈ ds ∨ c.isDigit = true
  | 0, _, _, _, h => Or.inl h
  | f + 1, n, ds, c, h => by
    rw [Nat.toDigitsCore] at h
    by_cases hz : n / 10 = 0
    · rw [if_pos hz] at h
      rcases List.mem_cons.mp h with rfl | hds
      · exact Or.inr (digitChar_isDigit (Nat.mod_lt n (by omega)))
      · exact Or.inl hds
    · rw [if_neg hz] at h
      rcases toDigitsCore_mem f (n / 10) _ c h with hmem | hdig
      · rcases List.mem_cons.mp hmem with rfl | hds
        · exact Or.inr (digitChar_isDigit (Nat.mod_lt n (by omega)))
        · exact Or.inl hds
      · exact Or.inr hdig

theorem nat_repr_digits {n : Nat} {c : Char} (h : c ∈ (Nat.repr n).data) :
    c.isDigit = true := by
  have hdata : (Nat.repr n).data = Nat.toDigitsCore 10 (n + 1) n [] := rfl
  rw [hdata] at h
  rcases toDigitsCore_mem (n + 1) n [] c h with hnil | hdig
  · cases hnil
  · exact hdig

theorem int_repr_chars {n : Int} {c : Char} (h : c ∈ (Int.repr n).data) :
    c.isDigit = true ∨ c = '-' := by
  match n with
  | .ofNat m => exact Or.inl (nat_repr_digits h)
  | .negSucc m =>
    have hdata : (Int.repr (Int.negSucc m)).data = '-' :: (Nat.repr (m + 1)).data := rfl
    rw [hdata] at h
    rcases List.mem_cons.mp h with rfl | hrest
    · exact Or.inr rfl
    · exact Or.inl (nat_repr_digits hrest)

theorem int_repr_ne_undefined (n : Int) : Int.repr n ≠ "__undefined__" := by
  intro h
  have hmem : '_' ∈ (Int.repr n).data := by
    rw [h]
    decide
  rcases int_repr_chars hmem with hdig | hdash
  · simp [Char.isDigit] at hdig
  · cases hdash

theorem iso_ne_undefined (t : DateV) : t.toISOString ≠ "__undefined__" := by
  intro h
  have hlast : t.toISOString.data.getLast? = some 'Z' := by
    rw [DateV.toISOString]
    show (_ ++ ("Z" : String)).data.getLast? = some 'Z'
    rw [String.data_append]
    exact List.getLast?_concat _
  rw [h] at hlast
  simp at hlast

theorem quoted_ne_undefined (x y : String) : "\"" ++ x ++ y ≠ "__undefined__" := by
  intro h
  have hdata : ('"' :: (x.data ++ y.data) : List Char) = "__undefined__".data := by
    rw [← h]
    simp
  rw [List.cons_eq_cons] at hdata
  have : ('"' : Char) = '_' := hdata.1
  cases this

theorem bracket_ne_undefined (x y : String) : "[" ++ x ++ y ≠ "__undefined__" := by
  intro h
  have hdata : ('[' :: (x.data ++ y.data) : List Char) = "__undefined__".data := by
    rw [← h]
    simp
  rw [List.cons_eq_cons] at hdata
  have : ('[' : Char) = '_' := hdata.1
  cases this

/-! ### `null` versus `undefined` -/

theorem findProp_scrub (pid : Int) :
    ∀ l : List (Int × JSVal),
      ((((l.map (fun e => (e.1, scrubVal e.2))).find?
          (fun e => e.1 == pid)).map (fun e => e.2)).getD JSVal.undef) =
        scrubVal (((l.find? (fun e => e.1 == pid)).map (fun e => e.2)).getD JSVal.undef)
  | [] => rfl
  | e :: es => by
    by_cases h : (e.1 == pid) = true
    · simp [List.find?_cons, h]
    · simp only [List.map_cons, List.find?_cons, h]
      exact findProp_scrub pid es

theorem getProp_scrubInstance (img : Instance) (pid : Int) :
    getProp (scrubInstance img) pid = scrubVal (getProp img pid) :=
  findProp_scrub pid img.properties

theorem propValues_scrub (images : List Instance) (pid : Int) :
    propValues (images.map scrubInstance) pid = (propValues images pid).map scrubVal := by
  rw [propValues, propValues, List.map_map, List.map_map]
  exact List.map_congr_left (fun img _ => getProp_scrubInstance img pid)

theorem filter_isDefined_scrub :
    ∀ l : List JSVal, (l.map scrubVal).filter isDefined = l.filter isDefined
  | [] => rfl
  | v :: l => by
    match v with
    | .undef =>
      simp only [List.map_cons, List.filter_cons]
      exact filter_isDefined_scrub l
    | .null =>
      simp only [List.map_cons, List.filter_cons]
      exact filter_isDefined_scrub l
    | .val x =>
      simp only [List.map_cons, List.filter_cons]
      show (if true then _ :: _ else _) = (if true then _ :: _ else _)
      rw [if_pos rfl, if_pos rfl]
      exact congrArg _ (filter_isDefined_scrub l)

theorem filterMap_definedVal_scrub :
    ∀ l : List JSVal, (l.map scrubVal).filterMap definedVal = l.filterMap definedVal
  | [] => rfl
  | v :: l => by
    match v with
    | .undef =>
      simp only [List.map_cons, List.filterMap_cons]
      exact filterMap_definedVal_scrub l
    | .null =>
      simp only [List.map_cons, List.filterMap_cons]
      exact filterMap_definedVal_scrub l
    | .val x =>
      simp only [List.map_cons, List.filterMap_cons]
      exact congrArg _ (filterMap_definedVal_scrub l)

theorem any_isDefined_scrub :
    ∀ l : List JSVal, (l.map scrubVal).any isDefined = l.any isDefined
  | [] => rfl
  | v :: l => by
    rw [List.map_cons, List.any_cons, List.any_cons, any_isDefined_scrub l]
    match v with
    | .undef => rfl
    | .null => rfl
    | .val x => rfl

theorem memberOptions_scrub (images : List Instance) (pid : Int) :
    memberOptions (images.map scrubInstance) pid = memberOptions images pid := by
  rw [memberOptions, memberOptions, List.filterMap_map]
  refine List.filterMap_congr (fun img _ => ?_)
  simp only [Function.comp]
  cases hgp : getProp img pid with
  | undef => rw [getProp_scrubInstance, hgp]; rfl
  | null => rw [getProp_scrubInstance, hgp]; rfl
  | val v => rw [getProp_scrubInstance, hgp]; rfl

theorem definedKeys_scrub (images : List Instance) (p : Property) :
    definedKeys (images.map scrubInstance) p = definedKeys images p := by
  rw [definedKeys, definedKeys, propValues_scrub, filter_isDefined_scrub]

theorem hasConflict_scrub (images : List Instance) (p : Property) :
    hasConflict (images.map scrubInstance) p = hasConflict images p := by
  rw [hasConflict, hasConflict, definedKeys_scrub]

theorem combineValues_scrub (images : List Instance) (p : Property) :
    combineValues (propValues (images.map scrubInstance) p.id) p =
      combineValues (propValues images p.id) p := by
  rw [propValues_scrub, combineValues, combineValues, filterMap_definedVal_scrub]

theorem rowOptions_scrub (images : List Instance) (p : Property) :
    rowOptions (images.map scrubInstance) p = rowOptions images p := by
  rw [rowOptions, rowOptions, memberOptions_scrub, hasConflict_scrub, combineValues_scrub]

theorem defaultKeyFor_scrub (images : List Instance) (p : Property) (sel : SelState) :
    defaultKeyFor (images.map scrubInstance) p sel = defaultKeyFor images p sel := by
  rw [defaultKeyFor, defaultKeyFor, hasConflict_scrub, rowOptions_scrub]

theorem rowFor_scrub (images : List Instance) (p : Property) :
    rowFor (images.map scrubInstance) p = rowFor images p := by
  rw [rowFor, rowFor, propValues_scrub, any_isDefined_scrub, rowOptions_scrub,
    hasConflict_scrub]

theorem buildRowsGo_scrub (images : List Instance) :
    ∀ (ps : List Property) (sel : SelState),
      buildRowsGo (images.map scrubInstance) ps sel = buildRowsGo images ps sel
  | [], _ => rfl
  | p :: ps, sel => by
    simp only [buildRowsGo, rowFor_scrub]
    match h : rowFor images p with
    | none =>
      simp only [h]
      exact buildRowsGo_scrub images ps sel
    | some row =>
      simp only [h, defaultKeyFor_scrub]
      rw [buildRowsGo_scrub images ps _]

/-- Turning `null` entries into missing entries across the member list
changes nothing about the built rows or the selection. -/
theorem buildRows_scrub (images : List Instance) (schemas : List Property) (sel : SelState) :
    buildRows (images.map scrubInstance) schemas sel = buildRows images schemas sel := by
  rw [buildRows, buildRows]
  match images with
  | [] => rfl
  | img :: rest =>
    rw [List.map_cons]
    show buildRowsGo _ _ _ = buildRowsGo _ _ _
    rw [← List.map_cons]
    exact buildRowsGo_scrub (img :: rest) _ sel

/-! ### First-seen union of tag identifiers -/

theorem mem_insertDistinct {acc : List Int} {x y : Int} :
    y ∈ insertDistinct acc x ↔ y ∈ acc ∨ y = x := by
  rw [insertDistinct]
  by_cases h : x ∈ acc
  · rw [if_pos h]
    constructor
    · exact Or.inl
    · rintro (hy | rfl)
      · exact hy
      · exact h
  · rw [if_neg h]
    simp

theorem insertDistinct_nodup {acc : List Int} (h : acc.Nodup) (x : Int) :
    (insertDistinct acc x).Nodup := by
  rw [insertDistinct]
  by_cases hx : x ∈ acc
  · rwa [if_pos hx]
  · rw [if_neg hx]
    simp [List.nodup_append, h, hx]

theorem foldl_insertDistinct_nodup :
    ∀ (l : List Int) (acc : List Int), acc.Nodup → (l.foldl insertDistinct acc).Nodup
  | [], _, h => h
  | x :: l, acc, h =>
    foldl_insertDistinct_nodup l (insertDistinct acc x) (insertDistinct_nodup h x)

theorem mem_foldl_insertDistinct :
    ∀ (l : List Int) (acc : List Int) (y : Int),
      y ∈ l.foldl insertDistinct acc ↔ y ∈ acc ∨ y ∈ l
  | [], _, _ => by simp
  | x :: l, acc, y => by
    rw [List.foldl_cons, mem_foldl_insertDistinct l _ y, mem_insertDistinct]
    constructor
    · rintro ((hy | rfl) | hy)
      · exact Or.inl hy
      · exact Or.inr (List.mem_cons_self _ _)
      · exact Or.inr (List.mem_cons_of_mem x hy)
    · rintro (hy | hy)
      · exact Or.inl (Or.inl hy)
      · rcases List.mem_cons.mp hy with rfl | hy
        · exact Or.inl (Or.inr rfl)
        · exact Or.inr hy

theorem dedupKeepFirst_nodup (l : List Int) : (dedupKeepFirst l).Nodup :=
  foldl_insertDistinct_nodup l [] List.nodup_nil

theorem mem_dedupKeepFirst {l : List Int} {y : Int} :
    y ∈ dedupKeepFirst l ↔ y ∈ l := by
  rw [dedupKeepFirst, mem_foldl_insertDistinct]
  simp

/-- The nested union loop of `combineValues` (add each value's
identifiers in turn) equals the first-seen deduplication of the
flattened identifier list. -/
theorem tagFold_eq_flat :
    ∀ (defined : List PValue) (acc : List Int),
      defined.foldl (fun merged v =>
        match v with
        | .arr ids => ids.foldl insertDistinct merged
        | .num n => insertDistinct merged n
        | _ => merged) acc =
      ((defined.flatMap scalarIds).foldl insertDistinct acc)
  | [], _ => rfl
  | v :: vs, acc => by
    rw [List.foldl_cons, List.flatMap_cons, List.foldl_append]
    match v with
    | .arr ids => exact tagFold_eq_flat vs _
    | .num n => exact tagFold_eq_flat vs _
    | .text s => exact tagFold_eq_flat vs _
    | .bool b => exact tagFold_eq_flat vs _
    | .date d => exact tagFold_eq_flat vs _

/-! ### Skipping unresolvable rows -/

theorem filterMap_filter_eq {α β : Type} (p : α → Bool) (f : α → Option β)
    (h : ∀ a, p a = false → f a = none) :
    ∀ l : List α, (l.filter p).filterMap f = l.filterMap f
  | [] => rfl
  | a :: l => by
    by_cases hp : p a = true
    · rw [List.filter_cons_of_pos hp, List.filterMap_cons, List.filterMap_cons]
      match f a with
      | none => exact filterMap_filter_eq p f h l
      | some b => exact congrArg _ (filterMap_filter_eq p f h l)
    · rw [List.filter_cons_of_neg (by simpa using hp), List.filterMap_cons,
        h a (Bool.eq_false_iff.mpr hp)]
      exact filterMap_filter_eq p f h l

/-! ## The claims -/

/-- C1: `buildRows` emits a row for schema `S` iff `S` is
user-resolvable (positive identifier, not computed, not a reserved
derived type) and at least one member has a defined value for `S`; rows
come in schema-list order, and zero members yield an empty row list. -/
theorem c1_row_emission (images : List Instance) (schemas : List Property) (sel : SelState) :
    ((buildRows images schemas sel).1.map (fun r => r.property)) =
      schemas.filter (fun p => isResolvable p && (propValues images p.id).any isDefined) ∧
    (images = [] → (buildRows images schemas sel).1 = []) := by
  constructor
  · rw [buildRows]
    by_cases he : images.isEmpty = true
    · rw [if_pos he]
      have himg : images = [] := List.isEmpty_iff.mp he
      subst himg
      have hmap : (([], sel) : List MergeRow × SelState).1.map (fun r => r.property) = [] := rfl
      rw [hmap]
      symm
      rw [List.filter_eq_nil_iff]
      intro p _
      simp [propValues]
    · rw [if_neg he, buildRowsGo_fst, map_property_filterMap_rowFor, List.filter_filter]
      refine List.filter_congr (fun p _ => ?_)
      rw [rowFor_isSome, Bool.and_comm]
  · intro h
    subst h
    rfl

/-- C1 witness: with zero members the row list is empty, by the
theorem's second conjunct. -/
theorem c1_row_emission_witness :
    (buildRows [] [⟨1, "name", .string, false, .sha1⟩] []).1 = [] :=
  (c1_row_emission [] [⟨1, "name", .string, false, .sha1⟩] []).2 rfl

/-- C2: a row's conflict flag is set iff two of the defined values'
canonical keys differ, and array canonicalization is order-independent —
permuted identifier arrays produce identical canonical keys. -/
theorem c2_conflict_iff (images : List Instance) (schemas : List Property) (sel : SelState) :
    (∀ row ∈ (buildRows images schemas sel).1,
      (row.conflict = true ↔
        ∃ k₁ ∈ definedKeys images row.property,
          ∃ k₂ ∈ definedKeys images row.property, k₁ ≠ k₂)) ∧
    (∀ (p : Property) (l₁ l₂ : List Int), l₁.Perm l₂ →
      stringifyValue (.val (.arr l₁)) p = stringifyValue (.val (.arr l₂)) p) := by
  constructor
  · intro row hrow
    have hstruct := (mem_buildRows hrow).2
    have hc : row.conflict = hasConflict images row.property := by
      rw [hstruct]
    rw [hc, hasConflict, decide_eq_true_iff]
    exact one_lt_dedup_length_iff
  · intro p l₁ l₂ h
    exact stringifyValue_arr_perm h p

/-- C2 witness: the multi-tag values `[1,2]` and `[2,1]` canonicalize
identically, by the theorem's order-independence conjunct. -/
theorem c2_conflict_iff_witness :
    stringifyValue (.val (.arr [1, 2])) ⟨1, "tags", .multi_tags, false, .id⟩ =
      stringifyValue (.val (.arr [2, 1])) ⟨1, "tags", .multi_tags, false, .id⟩ :=
  (c2_conflict_iff [] [] []).2 ⟨1, "tags", .multi_tags, false, .id⟩ [1, 2] [2, 1] (by decide)

/-- C3 counterexample: the prior selection key `"999"` matches no option
of the rebuilt row (whose only option key is `"1"`), yet `buildRows`
keeps `"999"` instead of falling back to the sole option's key — the
`??` on line 163 never checks the stale key against the options. -/
theorem c3_counterexample :
    (selGet (buildRows [⟨1, "h1", "a", [(1, .val (.text "x"))]⟩]
        [⟨1, "name", .string, false, .id⟩] [(1, "999")]).2 1 = some "999") ∧
    ((buildRows [⟨1, "h1", "a", [(1, .val (.text "x"))]⟩]
        [⟨1, "name", .string, false, .id⟩] [(1, "999")]).1.all
      (fun row => row.options.all (fun o => o.key != "999")) = true) ∧
    (selGet (buildRows [⟨1, "h1", "a", [(1, .val (.text "x"))]⟩]
        [⟨1, "name", .string, false, .id⟩] [(1, "999")]).2 1 ≠ some "1") := by
  refine ⟨by decide, by decide, by decide⟩

/-- C3 (amended): a prior selection for property `P` is reused
unconditionally whenever present — even when it no longer names an
option — and the conflict/default rule applies only when no prior
selection exists; `defaultKeyFor` is exactly that policy. -/
theorem c3_selection_amended (images : List Instance) (schemas : List Property)
    (sel : SelState) (p : Property)
    (hnd : ((schemas.filter isResolvable).map (fun q => q.id)).Nodup)
    (hp : p ∈ schemas.filter isResolvable)
    (hd : (propValues images p.id).any isDefined = true) :
    selGet (buildRows images schemas sel).2 p.id =
      some (defaultKeyFor images p sel) := by
  rw [buildRows]
  by_cases he : images.isEmpty = true
  · exfalso
    have himg : images = [] := List.isEmpty_iff.mp he
    subst himg
    simp [propValues] at hd
  · rw [if_neg he]
    refine buildRowsGo_snd_emitted images _ sel p hnd hp ?_
    rw [rowFor_isSome]
    exact hd

/-- C3 witness: the amended rule applied to the counterexample input —
the stale key `"999"` is what `defaultKeyFor` reuses. -/
theorem c3_selection_amended_witness :
    selGet (buildRows [⟨1, "h1", "a", [(1, .val (.text "x"))]⟩]
        [⟨1, "name", .string, false, .id⟩] [(1, "999")]).2 1 =
      some (defaultKeyFor [⟨1, "h1", "a", [(1, .val (.text "x"))]⟩]
        ⟨1, "name", .string, false, .id⟩ [(1, "999")]) :=
  c3_selection_amended [⟨1, "h1", "a", [(1, .val (.text "x"))]⟩]
    [⟨1, "name", .string, false, .id⟩] [(1, "999")] ⟨1, "name", .string, false, .id⟩
    (by decide) (by decide) (by decide)

/-- C4: the commit builder copies the base member with the unpersisted
sentinel `-1` as identifier, routes per-instance properties by
`(propertyId, newMember.id)` and per-entity properties by
`(propertyId, newMember.sha1)`, and — for a row list without duplicate
property identifiers — no property lands in both lists. -/
theorem c4_commit_routing (base : Instance) (rows : List MergeRow) (sel : SelState)
    (hnd : (rows.map (fun r => r.property.id)).Nodup) :
    (confirmMergeCommit base rows sel).instances = [{ base with id := -1 }] ∧
    (∀ v ∈ (confirmMergeCommit base rows sel).instanceValues,
      v.instanceId = -1 ∧ ∃ row ∈ rows, row.property.id = v.propertyId ∧
        row.property.mode = PropertyMode.id ∧ resolveRow sel row = some v.value) ∧
    (∀ v ∈ (confirmMergeCommit base rows sel).imageValues,
      v.sha1 = base.sha1 ∧ ∃ row ∈ rows, row.property.id = v.propertyId ∧
        row.property.mode = PropertyMode.sha1 ∧ resolveRow sel row = some v.value) ∧
    (∀ pid : Int,
      pid ∈ (confirmMergeCommit base rows sel).instanceValues.map (fun v => v.propertyId) →
      pid ∉ (confirmMergeCommit base rows sel).imageValues.map (fun v => v.propertyId)) := by
  have hInst : ∀ v ∈ rows.filterMap (routeInstanceValue sel),
      v.instanceId = -1 ∧ ∃ row ∈ rows, row.property.id = v.propertyId ∧
        row.property.mode = PropertyMode.id ∧ resolveRow sel row = some v.value := by
    intro v hv
    obtain ⟨row, hrow, hr⟩ := List.mem_filterMap.mp hv
    rw [routeInstanceValue] at hr
    match hres : resolveRow sel row with
    | none => rw [hres] at hr; cases hr
    | some w =>
      rw [hres] at hr
      have hr' : (if row.property.mode = PropertyMode.id then
          some (⟨row.property.id, -1, w⟩ : InstancePropertyValue) else none) = some v := hr
      by_cases hm : row.property.mode = PropertyMode.id
      · rw [if_pos hm] at hr'
        injection hr' with hr'
        subst hr'
        exact ⟨rfl, row, hrow, rfl, hm, hres⟩
      · rw [if_neg hm] at hr'
        cases hr'
  have hIma : ∀ v ∈ rows.filterMap (routeImageValue base sel),
      v.sha1 = base.sha1 ∧ ∃ row ∈ rows, row.property.id = v.propertyId ∧
        row.property.mode = PropertyMode.sha1 ∧ resolveRow sel row = some v.value := by
    intro v hv
    obtain ⟨row, hrow, hr⟩ := List.mem_filterMap.mp hv
    rw [routeImageValue] at hr
    match hres : resolveRow sel row with
    | none => rw [hres] at hr; cases hr
    | some w =>
      rw [hres] at hr
      have hr' : (if row.property.mode = PropertyMode.id then none
          else some (⟨row.property.id, base.sha1, w⟩ : ImagePropertyValue)) = some v := hr
      by_cases hm : row.property.mode = PropertyMode.id
      · rw [if_pos hm] at hr'
        cases hr'
      · rw [if_neg hm] at hr'
        injection hr' with hr'
        subst hr'
        have hm' : row.property.mode = PropertyMode.sha1 := by
          cases hmode : row.property.mode
          · exact absurd hmode hm
          · rfl
        exact ⟨rfl, row, hrow, rfl, hm', hres⟩
  have hdisj : ∀ pid : Int,
      pid ∈ (rows.filterMap (routeInstanceValue sel)).map (fun v => v.propertyId) →
      pid ∉ (rows.filterMap (routeImageValue base sel)).map (fun v => v.propertyId) := by
    intro pid h1 h2
    obtain ⟨v1, hv1, hpid1⟩ := List.mem_map.mp h1
    obtain ⟨v2, hv2, hpid2⟩ := List.mem_map.mp h2
    obtain ⟨_, row1, hrow1, hid1, hm1, _⟩ := hInst v1 hv1
    obtain ⟨_, row2, hrow2, hid2, hm2, _⟩ := hIma v2 hv2
    have heq : row1 = row2 :=
      List.inj_on_of_nodup_map hnd hrow1 hrow2 (by rw [hid1, hpid1, ← hpid2, ← hid2])
    rw [heq, hm2] at hm1
    cases hm1
  rw [confirmMergeCommit_eq]
  exact ⟨rfl, hInst, hIma, hdisj⟩

/-- C4 witness: on a concrete base member (and the empty row list, whose
identifiers are trivially duplicate-free), the synthesized member is the
base member with identifier `-1`. -/
theorem c4_commit_routing_witness :
    (confirmMergeCommit ⟨7, "h7", "base", []⟩ [] []).instances =
      [{ (⟨7, "h7", "base", []⟩ : Instance) with id := -1 }] :=
  (c4_commit_routing ⟨7, "h7", "base", []⟩ [] [] (by decide)).1

/-- C5 counterexample: with the `merging` guard set and a base member
present, `confirmMerge` still hands a commit to the persistence
collaborator — the routine's only entry check is
`if (!baseImage.value) return`; it never consults `merging`. -/
theorem c5_counterexample :
    (⟨true, some ⟨1, "h1", "a", []⟩, [], []⟩ : MergeState).merging = true ∧
    confirmMergeSend ⟨true, some ⟨1, "h1", "a", []⟩, [], []⟩ ≠ none :=
  ⟨rfl, by decide⟩

/-- C5 (amended): re-invocation while a submit is in flight is prevented
only at the UI boundary — the confirm control carries the `disabled`
class (`pointer-events: none`) whenever `merging` is set — while the
routine itself proceeds exactly when a base member exists, regardless of
the guard. -/
theorem c5_guard_amended (st : MergeState) :
    (st.merging = true → confirmDisabled st = true) ∧
    ((confirmMergeSend st).isSome ↔ st.baseImage.isSome) := by
  constructor
  · intro h
    rw [confirmDisabled, h]
    rfl
  · cases hb : st.baseImage with
    | none => simp [confirmMergeSend, hb]
    | some base => simp [confirmMergeSend, hb]

/-- C5 witness: the amended rule at a concrete in-flight state — the
confirm control is disabled. -/
theorem c5_guard_amended_witness :
    confirmDisabled ⟨true, some ⟨1, "h1", "a", []⟩, [], []⟩ = true :=
  (c5_guard_amended ⟨true, some ⟨1, "h1", "a", []⟩, [], []⟩).1 rfl

/-- C8: rows whose selection key matches no option, or whose matching
option carries an absent value, contribute nothing — the commit equals
the commit over only the resolvable rows, and is always produced. -/
theorem c8_unresolvable_omitted (base : Instance) (rows : List MergeRow) (sel : SelState) :
    confirmMergeCommit base rows sel =
      confirmMergeCommit base (rows.filter (fun r => (resolveRow sel r).isSome)) sel := by
  have hInst : ∀ r : MergeRow, (resolveRow sel r).isSome = false →
      routeInstanceValue sel r = none := by
    intro r hr
    rw [routeInstanceValue]
    match hres : resolveRow sel r with
    | none => rfl
    | some w => rw [hres] at hr; cases hr
  have hIma : ∀ r : MergeRow, (resolveRow sel r).isSome = false →
      routeImageValue base sel r = none := by
    intro r hr
    rw [routeImageValue]
    match hres : resolveRow sel r with
    | none => rfl
    | some w => rw [hres] at hr; cases hr
  rw [confirmMergeCommit_eq, confirmMergeCommit_eq,
    filterMap_filter_eq _ _ hInst rows, filterMap_filter_eq _ _ hIma rows]

/-- C6: for a tag-typed property, combining tag-shaped defined values
yields the array of all referenced identifiers, first-seen-deduplicated
(duplicate-free, membership exactly the union of the referenced
identifiers). -/
theorem c6_tag_union (property : Property) (values : List JSVal)
    (ht : isTag property.type = true)
    (hne : values.filterMap definedVal ≠ [])
    (_hshape : ∀ v ∈ values.filterMap definedVal, tagShaped v = true) :
    combineValues values property =
      some (.arr (dedupKeepFirst ((values.filterMap definedVal).flatMap scalarIds))) ∧
    (dedupKeepFirst ((values.filterMap definedVal).flatMap scalarIds)).Nodup ∧
    (∀ i : Int, i ∈ dedupKeepFirst ((values.filterMap definedVal).flatMap scalarIds) ↔
      i ∈ (values.filterMap definedVal).flatMap scalarIds) := by
  refine ⟨?_, dedupKeepFirst_nodup _, fun i => mem_dedupKeepFirst⟩
  have hemp : (values.filterMap definedVal).isEmpty = false := by
    simpa [List.isEmpty_iff] using hne
  rw [combineValues]
  show (if (values.filterMap definedVal).isEmpty = true then _ else _) = _
  rw [hemp, if_neg (by simp), if_pos ht, tagFold_eq_flat]
  rfl

/-- C6 witness: combining `[1,2]` and `[2,3]` yields exactly `[1,2,3]`. -/
theorem c6_tag_union_witness :
    combineValues [.val (.arr [1, 2]), .val (.arr [2, 3])]
      ⟨1, "tags", .multi_tags, false, .id⟩ = some (.arr [1, 2, 3]) := by
  have h := (c6_tag_union ⟨1, "tags", .multi_tags, false, .id⟩
    [.val (.arr [1, 2]), .val (.arr [2, 3])] (by decide) (by decide) (by decide)).1
  rw [h]
  decide

/-- C7 counterexample: the source joins with `" -- "` (two hyphens), not
the claimed `" — "` (em dash): combining `"red"` and `"blue"` yields
`"red -- blue"`, not `"red — blue"`. -/
theorem c7_counterexample :
    combineValues [.val (.text "red"), .val (.text "blue")]
      ⟨1, "color", .string, false, .sha1⟩ = some (.text "red -- blue") ∧
    combineValues [.val (.text "red"), .val (.text "blue")]
      ⟨1, "color", .string, false, .sha1⟩ ≠ some (.text "red — blue") :=
  ⟨by decide, by decide⟩

/-- C7 (amended): for a non-tag property the combined value is the
defined values' display strings joined by the fixed separator `" -- "`
between every adjacent pair, and is always textual. -/
theorem c7_join_amended (property : Property) (values : List JSVal)
    (ht : isTag property.type = false)
    (hne : values.filterMap definedVal ≠ []) :
    combineValues values property = some (.text (String.intercalate " -- "
      ((values.filterMap definedVal).map (fun v => formatValue (.val v) property)))) := by
  have hemp : (values.filterMap definedVal).isEmpty = false := by
    simpa [List.isEmpty_iff] using hne
  rw [combineValues]
  show (if (values.filterMap definedVal).isEmpty = true then _ else _) = _
  rw [hemp, if_neg (by simp), if_neg (by simp [ht])]

/-- C7 witness: the amended rule on `"red"` and `"blue"` produces the
literal `"red -- blue"`. -/
theorem c7_join_amended_witness :
    combineValues [.val (.text "red"), .val (.text "blue")]
      ⟨2, "kind", .string, false, .id⟩ = some (.text "red -- blue") := by
  rw [c7_join_amended ⟨2, "kind", .string, false, .id⟩
    [.val (.text "red"), .val (.text "blue")] (by decide) (by decide)]
  decide

/-- C9 counterexample: a color-typed property serializes a defined value
via `String(value)`, so the defined text `"__undefined__"` collides with
the absent key `"__undefined__"`. -/
theorem c9_counterexample :
    stringifyValue (.val (.text "__undefined__")) ⟨1, "c", .color, false, .sha1⟩ =
      stringifyValue .undef ⟨1, "c", .color, false, .sha1⟩ ∧
    stringifyValue .undef ⟨1, "c", .color, false, .sha1⟩ = "__undefined__" :=
  ⟨by decide, rfl⟩

/-- C9 (amended): the absent key `"__undefined__"` is distinct from every
defined value's canonical key — except for a color-typed property whose
defined value is the literal text `"__undefined__"`, which `String(value)`
sends to the very same key. -/
theorem c9_absent_key_amended (p : Property) (v : PValue)
    (h : ¬(p.type = PropertyType.color ∧ v = PValue.text "__undefined__")) :
    stringifyValue (.val v) p ≠ stringifyValue .undef p ∧
    stringifyValue .undef p = "__undefined__" ∧
    stringifyValue .null p = "__undefined__" := by
  refine ⟨?_, rfl, rfl⟩
  show stringifyValue (.val v) p ≠ "__undefined__"
  match v with
  | .arr ids =>
    show "[" ++ _ ++ "]" ≠ _
    exact bracket_ne_undefined _ _
  | .date d =>
    show d.toISOString ≠ _
    exact iso_ne_undefined d
  | .text s =>
    show (if p.type = PropertyType.color then jsToString (.text s)
      else jsonEncode (.text s)) ≠ _
    by_cases hc : p.type = PropertyType.color
    · rw [if_pos hc]
      exact fun hs => h ⟨hc, by rw [show s = "__undefined__" from hs]⟩
    · rw [if_neg hc]
      show "\"" ++ escapeJson s ++ "\"" ≠ _
      exact quoted_ne_undefined _ _
  | .num n =>
    show (if p.type = PropertyType.color then jsToString (.num n)
      else jsonEncode (.num n)) ≠ _
    by_cases hc : p.type = PropertyType.color
    · rw [if_pos hc]
      exact int_repr_ne_undefined n
    · rw [if_neg hc]
      exact int_repr_ne_undefined n
  | .bool b =>
    show (if p.type = PropertyType.color then jsToString (.bool b)
      else jsonEncode (.bool b)) ≠ _
    by_cases hc : p.type = PropertyType.color
    · rw [if_pos hc]
      cases b <;> decide
    · rw [if_neg hc]
      cases b <;> decide

/-- C9 witness: a defined color text distinct from the sentinel keeps a
key distinct from the absent key. -/
theorem c9_absent_key_amended_witness :
    stringifyValue (.val (.text "hello")) ⟨1, "c", .color, false, .sha1⟩ ≠
      stringifyValue .undef ⟨1, "c", .color, false, .sha1⟩ :=
  (c9_absent_key_amended ⟨1, "c", .color, false, .sha1⟩ (.text "hello") (by decide)).1

/-- C10 counterexample: the synthesized member is a shallow copy of the
base member, so a base member whose property map holds a `null` entry
produces a different ChangeSet than one where that entry is missing —
the copied property map differs. -/
theorem c10_counterexample :
    confirmMergeCommit (scrubInstance ⟨1, "h1", "a", [(1, JSVal.null)]⟩) [] [] ≠
      confirmMergeCommit ⟨1, "h1", "a", [(1, JSVal.null)]⟩ [] [] := by
  decide

/-- C10 (amended): turning `null` property entries into missing entries
leaves the built rows, the resulting selection, and both resolved-value
lists of the ChangeSet unchanged — only the verbatim copy of the base
member inside the ChangeSet can differ. -/
theorem c10_null_like_absent_amended (images : List Instance) (schemas : List Property)
    (sel : SelState) (base : Instance) (rows : List MergeRow) (sel' : SelState) :
    buildRows (images.map scrubInstance) schemas sel = buildRows images schemas sel ∧
    (confirmMergeCommit (scrubInstance base) rows sel').instanceValues =
      (confirmMergeCommit base rows sel').instanceValues ∧
    (confirmMergeCommit (scrubInstance base) rows sel').imageValues =
      (confirmMergeCommit base rows sel').imageValues := by
  refine ⟨buildRows_scrub images schemas sel, ?_, ?_⟩
  · rw [confirmMergeCommit_eq, confirmMergeCommit_eq]
  · rw [confirmMergeCommit_eq, confirmMergeCommit_eq]
    rfl

end Panoptic
